import Mathlib

/-!
# Revision-author cache reducer and simple-payments validation

A shallow embedding of

* `client/state/posts/revisions/authors/reducer.js` (`items`), and
* `client/gutenberg/extensions/simple-payments/edit.js`
  (`decimalPlaces`, `validatePrice`, `validateEmail`, `validateTitle`,
  `validateCurrency`, `validateAttributes`),

followed by the properties established about them.
-/

namespace Authors

/-- A user record: its numeric `ID` and its remaining attributes as key/value pairs. -/
structure User where
  ID : Nat
  attrs : List (String × String)
  deriving DecidableEq, Repr

/-- Own properties of the state object: a finite map from user ID to record, compared by
value.  The property key of `newState[ user.ID ]` is the decimal rendering of the ID, which
is injective on natural numbers, so the ID itself serves as the key. -/
abbrev Props := Finmap (fun _ : Nat => User)

/-- A JavaScript object on the heap: the address that `===` compares, and its own
properties. -/
structure Obj where
  addr : Nat
  props : Props

/-- Strict equality `a === b` of two object references. -/
def Obj.same (a b : Obj) : Bool := a.addr == b.addr

/-- The object spread `{ ...state }`: a newly allocated object (an address different from
the one of `state`) holding the same own properties. -/
def spread (state : Obj) : Obj :=
  { addr := state.addr + 1, props := state.props }

/-- Property assignment `o[ key ] = value`: the object keeps its address. -/
def Obj.assign (o : Obj) (key : Nat) (value : User) : Obj :=
  { o with props := Finmap.insert key value o.props }

/-- Actions seen by the reducer: the one it handles, with its `users` payload, and any
other action type. -/
inductive Action where
  | POST_REVISION_AUTHORS_RECEIVE (users : List User)
  | other (type : String)

/-- The callback handed to `reduce` (reducer.js lines 27-33). -/
def itemsStep (state : Obj) (newState : Obj) (user : User) : Obj :=
  let newState := if newState.same state then spread state else newState
  newState.assign user.ID user

/-- The `items` reducer (reducer.js lines 22-39). -/
def items (state : Obj) (action : Action) : Obj :=
  match action with
  | .POST_REVISION_AUTHORS_RECEIVE users => users.foldl (itemsStep state) state
  | .other _ => state

/-- The last record of a batch whose ID is `k`, if the batch holds one. -/
def lastWithID (b : List User) (k : Nat) : Option User :=
  b.reverse.find? (fun u => u.ID == k)

/-- Insertion of a whole batch, in order, into a property map. -/
def insertAll (p : Props) (b : List User) : Props :=
  b.foldl (fun q u => Finmap.insert u.ID u q) p

end Authors

namespace SimplePayments

/-! ## JavaScript values held by the `price` attribute -/

/-- A Number value other than NaN.  `finite neg s n` is the non-zero value
`±s × 10^(n - k)`, where `k` is the number of decimal digits of `s` and `s` is the shortest
digit string that identifies the double (the `n`, `k`, `s` of ECMAScript
`Number::toString`).  NaN is left out: `handlePriceChange` (edit.js lines 316-322) stores
`undefined` in its place and the API schema (`spay_price`) is JSON, which carries none. -/
inductive JSNumber where
  | zero (neg : Bool)
  | infinity (neg : Bool)
  | finite (neg : Bool) (s : Nat) (n : Int)
  deriving DecidableEq, Repr

/-- The values the `price` attribute is considered with: absent, a Number, or a String. -/
inductive JSValue where
  | undefined
  | number (x : JSNumber)
  | string (s : String)
  deriving DecidableEq, Repr

/-- The test `! price`. -/
def JSValue.falsy : JSValue → Bool
  | .undefined => true
  | .number (.zero _) => true
  | .number _ => false
  | .string s => s.data.isEmpty

/-- The exponent suffix of `Number::toString`: a sign and the decimal digits. -/
def exponentChars (e : Int) : List Char :=
  (if e < 0 then '-' else '+') :: Nat.toDigits 10 e.natAbs

/-- ECMAScript `Number::toString` (radix 10) on a positive finite value, steps 6 to 10. -/
def unsignedToString (s : Nat) (n : Int) : List Char :=
  let ds := Nat.toDigits 10 s
  let k : Int := ds.length
  if k ≤ n ∧ n ≤ 21 then ds ++ List.replicate (n - k).toNat '0'
  else if 0 < n ∧ n ≤ 21 then ds.take n.toNat ++ '.' :: ds.drop n.toNat
  else if -6 < n ∧ n ≤ 0 then '0' :: '.' :: (List.replicate (-n).toNat '0' ++ ds)
  else if ds.length = 1 then ds ++ 'e' :: exponentChars (n - 1)
  else ds.take 1 ++ '.' :: (ds.drop 1 ++ 'e' :: exponentChars (n - 1))

/-- ECMAScript `Number::toString` (radix 10). -/
def JSNumber.toChars : JSNumber → List Char
  | .zero _ => ['0']
  | .infinity neg => (if neg then ['-'] else []) ++ "Infinity".data
  | .finite neg s n => (if neg then ['-'] else []) ++ unsignedToString s n

/-- The string conversion `'' + value`. -/
def JSValue.toChars : JSValue → List Char
  | .undefined => "undefined".data
  | .number x => x.toChars
  | .string s => s.data

/-! ## `parseFloat` -/

/-- What `parseFloat` returns: NaN, an infinity, or the double nearest to the decimal
`±mant × 10^exp` that was read. -/
inductive NumVal where
  | nan
  | infinity (neg : Bool)
  | decimal (neg : Bool) (mant : Nat) (exp : Int)
  deriving DecidableEq, Repr

/-- The test `Number.isNaN( x )`. -/
def NumVal.isNaN : NumVal → Bool
  | .nan => true
  | _ => false

/-- Whether `mant × 10^exp` rounds to a zero double: it is zero, or at most `2^-1075`, half
the least subnormal (a tie goes to the even neighbour, zero).  Since `10^323 < 2^1075` this
needs `exp ≤ -324`. -/
def roundsToZero (mant : Nat) (exp : Int) : Bool :=
  mant == 0 || (decide (exp ≤ -324) && decide (mant * 2 ^ 1075 ≤ 10 ^ (-exp).toNat))

/-- The test `x === 0` (true of both zeros). -/
def NumVal.isZero : NumVal → Bool
  | .decimal _ mant exp => roundsToZero mant exp
  | _ => false

/-- The test `x < 0` (false of NaN and of both zeros). -/
def NumVal.isNegative : NumVal → Bool
  | .nan => false
  | .infinity neg => neg
  | .decimal neg mant exp => neg && !roundsToZero mant exp

/-- The class `\d` of the regular expression, also a `DecimalDigit` of the grammar. -/
def isDecimalDigit (c : Char) : Bool :=
  decide (48 ≤ c.toNat) && decide (c.toNat ≤ 57)

/-- The characters `parseFloat` trims at the start: `WhiteSpace` and `LineTerminator`. -/
def isStrWhiteSpaceChar (c : Char) : Bool :=
  let n := c.toNat
  n == 0x9 || n == 0xA || n == 0xB || n == 0xC || n == 0xD || n == 0x20 || n == 0xA0 ||
  n == 0x1680 || (decide (0x2000 ≤ n) && decide (n ≤ 0x200A)) || n == 0x2028 ||
  n == 0x2029 || n == 0x202F || n == 0x205F || n == 0x3000 || n == 0xFEFF

/-- The number a string of decimal digits denotes. -/
def digitsValue (ds : List Char) : Nat :=
  ds.foldl (fun a c => 10 * a + (c.toNat - 48)) 0

/-- An optional leading sign: whether it is a minus, and what follows it. -/
def splitSign : List Char → Bool × List Char
  | c :: r => if c = '+' then (false, r) else if c = '-' then (true, r) else (false, c :: r)
  | [] => (false, [])

/-- The value of an optional `ExponentPart` at the head of the input: 0 when there is none
(an `e` that no digits follow is not part of the literal). -/
def exponentValue (cs : List Char) : Int :=
  match cs with
  | c :: rest =>
    if c = 'e' ∨ c = 'E' then
      let ds := (splitSign rest).2.takeWhile isDecimalDigit
      if ds.isEmpty then 0
      else if (splitSign rest).1 then -(digitsValue ds : Int) else (digitsValue ds : Int)
    else 0
  | [] => 0

/-- The longest prefix that is a `StrUnsignedDecimalLiteral` other than `Infinity`, as
mantissa and decimal exponent; `none` when no prefix is one. -/
def parseUnsigned (cs : List Char) : Option (Nat × Int) :=
  let ip := cs.takeWhile isDecimalDigit
  match cs.dropWhile isDecimalDigit with
  | '.' :: r =>
    let fp := r.takeWhile isDecimalDigit
    if ip.isEmpty && fp.isEmpty then none
    else some (digitsValue (ip ++ fp), exponentValue (r.dropWhile isDecimalDigit) - fp.length)
  | r => if ip.isEmpty then none else some (digitsValue ip, exponentValue r)

/-- ECMAScript `parseFloat` on the characters of its argument. -/
def parseFloatChars (cs : List Char) : NumVal :=
  let t := splitSign (cs.dropWhile isStrWhiteSpaceChar)
  if "Infinity".data.isPrefixOf t.2 then .infinity t.1
  else
    match parseUnsigned t.2 with
    | none => .nan
    | some (m, e) => .decimal t.1 m e

/-- The call `parseFloat( price )`: the argument is converted to a string first. -/
def parseFloat (v : JSValue) : NumVal := parseFloatChars v.toChars

/-! ## `decimalPlaces` (edit.js lines 155-162) -/

/-- The group `(?:\.(\d+))?` at the head of the input: the capture and the rest. -/
def matchFraction (cs : List Char) : Option (List Char) × List Char :=
  match cs with
  | c :: rest =>
    if c = '.' then
      let ds := rest.takeWhile isDecimalDigit
      if ds.isEmpty then (none, cs) else (some ds, rest.dropWhile isDecimalDigit)
    else (none, cs)
  | [] => (none, cs)

/-- The item `[+-]?` at the head of the input: the sign it consumes, if any. -/
def signPrefix : List Char → List Char
  | c :: _ => if c = '+' ∨ c = '-' then [c] else []
  | [] => []

/-- The group `(?:[eE]([+-]?\d+))?` at the head of the input: the capture and the rest. -/
def matchExponent (cs : List Char) : Option (List Char) × List Char :=
  match cs with
  | c :: rest =>
    if c = 'e' ∨ c = 'E' then
      let sign := signPrefix rest
      let r := rest.drop sign.length
      let ds := r.takeWhile isDecimalDigit
      if ds.isEmpty then (none, cs) else (some (sign ++ ds), r.dropWhile isDecimalDigit)
    else (none, cs)
  | [] => (none, cs)

/-- An attempt of `/(?:\.(\d+))?(?:[eE]([+-]?\d+))?$/` at the head of the input: the two
captures when the attempt reaches the end of the input.  Both groups are greedy, and giving
back digits or dropping a group that matched can never reach `$` (the next character would
be a digit, `.`, `e` or `E`), so the greedy attempt decides. -/
def matchHere (cs : List Char) : Option (Option (List Char) × Option (List Char)) :=
  let f := matchFraction cs
  let e := matchExponent f.2
  if e.2.isEmpty then some (f.1, e.1) else none

/-- The call `String.prototype.match` for that expression: the attempt at the leftmost
position that succeeds. -/
def regexMatch : List Char → Option (Option (List Char) × Option (List Char))
  | [] => matchHere []
  | c :: cs =>
    match matchHere (c :: cs) with
    | some m => some m
    | none => regexMatch cs

/-! ### The double arithmetic of `decimalPlaces` (edit.js line 161) -/

/-- The number of low bits a natural number has beyond the 53 a double keeps: the least
`e` with `n / 2^e < 2^53`, for enough fuel. -/
def excessBits : Nat → Nat → Nat
  | 0, _ => 0
  | fuel + 1, n => if n < 2 ^ 53 then 0 else excessBits fuel (n / 2) + 1

/-- The double nearest to a natural number, by its exact value: the number itself below
`2^53`, else its leading 53 bits rounded to nearest, ties to even; `none` is Infinity,
reached when the rounded value is `2^1024` or more. -/
def nearestDouble (n : Nat) : Option Nat :=
  let e := excessBits n n
  let q := n / 2 ^ e
  let r := n % 2 ^ e
  let m := if 2 ^ e < 2 * r ∨ (2 * r = 2 ^ e ∧ q % 2 = 1) then q + 1 else q
  if 971 < e ∨ (e = 971 ∧ m = 2 ^ 53) then none else some (m * 2 ^ e)

/-- An integer-valued Number or an infinity: what `+match[ 2 ]` yields. -/
inductive IntNumber where
  | finite (value : Int)
  | infinity (neg : Bool)
  deriving DecidableEq, Repr

/-- A non-negative integer-valued Number or Infinity: what `Math.max( 0, ... )` yields. -/
inductive Places where
  | finite (n : Nat)
  | infinity
  deriving DecidableEq, Repr

/-- The comparison `a < b` of two such Numbers. -/
def Places.ltb : Places → Places → Bool
  | .finite a, .finite b => decide (a < b)
  | .finite _, .infinity => true
  | .infinity, _ => false

instance : LT Places := ⟨fun a b => a.ltb b = true⟩

instance : LE Places := ⟨fun a b => b.ltb a = false⟩

instance (a b : Places) : Decidable (a < b) := inferInstanceAs (Decidable (a.ltb b = true))

instance (a b : Places) : Decidable (a ≤ b) := inferInstanceAs (Decidable (b.ltb a = false))

instance : Coe Nat Places := ⟨Places.finite⟩

instance (n : Nat) : OfNat Places n := ⟨Places.finite n⟩

/-- The conversion `+match[ 2 ]` of a captured exponent, an optional sign and digits: the
double nearest to the integer written (correctly rounded, as engines compute it), an
infinity past the largest double. -/
def signedValue (cs : List Char) : IntNumber :=
  match nearestDouble (digitsValue (splitSign cs).2) with
  | none => .infinity (splitSign cs).1
  | some v => .finite (if (splitSign cs).1 then -(v : Int) else (v : Int))

/-- The expression `Math.max( 0, length - exponent )`, where `length` is the length of a
string (a Number, as every string length is below `2^53`): subtracting zero gives
`length` back, and otherwise the exact difference is rounded to the nearest double. -/
def maxZeroSub (length : Nat) : IntNumber → Places
  | .infinity true => .infinity
  | .infinity false => .finite 0
  | .finite exponent =>
    if exponent = 0 then .finite length
    else
      match nearestDouble ((length : Int) - exponent).toNat with
      | none => .infinity
      | some v => .finite v

/-- The body of `decimalPlaces` on the characters of `'' + number`. -/
def decimalPlacesChars (cs : List Char) : Places :=
  match regexMatch cs with
  | none => 0
  | some (g1, g2) =>
    maxZeroSub
      (match g1 with
        | some d => d.length
        | none => 0)
      (match g2 with
        | some e => signedValue e
        | none => .finite 0)

/-- The method `decimalPlaces`. -/
def decimalPlaces (number : JSValue) : Places := decimalPlacesChars number.toChars

/-! ## Component state, attributes and collaborators -/

/-- The messages the validators store, by the source text handed to the translation
functions; `apiInvalidPrice` is the one `saveProduct` stores on a rejected save.  Every
one of them is a non-empty string, so a slot is truthy exactly when it is not `null`. -/
inductive Message where
  | priceRequired
  | invalidPrice
  | negativePrice
  | noDecimals
  | tooManyDecimals (precision : Nat)
  | emailRequired
  | invalidEmail (email : String)
  | titleRequired
  | apiInvalidPrice
  deriving DecidableEq, Repr

/-- The untranslated text of a message; `_n` picks the singular for a count of 1. -/
def Message.text : Message → String
  | .priceRequired => "If you’re selling something, you need a price tag. Add yours here."
  | .invalidPrice => "Invalid price"
  | .negativePrice =>
    "Your price is negative — enter a positive number so people can pay the right amount."
  | .noDecimals => "We know every penny counts, but prices can’t contain decimal values."
  | .tooManyDecimals precision =>
    if precision = 1 then
      "The price cannot have more than " ++ toString precision ++ " decimal place."
    else "The price cannot have more than " ++ toString precision ++ " decimal places."
  | .emailRequired =>
    "We want to make sure payments reach you, so please add an email address."
  | .invalidEmail email => email ++ " is not a valid email address."
  | .titleRequired => "Please add a brief title so that people know what they’re paying for."
  | .apiInvalidPrice => "Invalid price."

/-- The component state (edit.js lines 41-46); `none` is `null`. -/
structure State where
  fieldEmailError : Option Message
  fieldPriceError : Option Message
  fieldTitleError : Option Message
  isSavingProduct : Bool
  deriving DecidableEq, Repr

/-- The block attributes the validators read; `none` is an absent attribute. -/
structure Attributes where
  title : Option String
  price : JSValue
  currency : Option String
  email : Option String
  deriving DecidableEq, Repr

/-- The part of a currency's defaults that the validators read. -/
structure CurrencyDefaults where
  precision : Nat
  deriving DecidableEq, Repr

/-- What the validators import from outside this file: the constant
`SUPPORTED_CURRENCY_LIST`, the function `getCurrencyDefaults`, and
`emailValidator.validate`. -/
structure Env where
  SUPPORTED_CURRENCY_LIST : List String
  getCurrencyDefaults : Option String → CurrencyDefaults
  emailValidator : String → Bool

/-- The test `! text` on a string attribute: absent or empty. -/
def emptyOrAbsent : Option String → Bool
  | none => true
  | some s => s.data.isEmpty

/-- The method `validateCurrency` (edit.js lines 181-184); it never calls `setState`. -/
def validateCurrency (env : Env) (attributes : Attributes) : Bool :=
  match attributes.currency with
  | none => false
  | some currency => env.SUPPORTED_CURRENCY_LIST.contains currency

/-- The method `validatePrice` (edit.js lines 193-248): the returned flag and the state
after its `setState` call, if it makes one. -/
def validatePrice (env : Env) (attributes : Attributes) (state : State) : Bool × State :=
  let price := attributes.price
  let precision := (env.getCurrencyDefaults attributes.currency).precision
  if price.falsy || (parseFloat price).isZero then
    (false, { state with fieldPriceError := some .priceRequired })
  else if (parseFloat price).isNaN then
    (false, { state with fieldPriceError := some .invalidPrice })
  else if (parseFloat price).isNegative then
    (false, { state with fieldPriceError := some .negativePrice })
  else if decimalPlaces price > precision then
    if precision = 0 then
      (false, { state with fieldPriceError := some .noDecimals })
    else
      (false, { state with fieldPriceError := some (.tooManyDecimals precision) })
  else if state.fieldPriceError.isSome then
    (true, { state with fieldPriceError := none })
  else
    (true, state)

/-- The method `validateEmail` (edit.js lines 257-280). -/
def validateEmail (env : Env) (attributes : Attributes) (state : State) : Bool × State :=
  match attributes.email with
  | none => (false, { state with fieldEmailError := some .emailRequired })
  | some email =>
    if email.data.isEmpty then
      (false, { state with fieldEmailError := some .emailRequired })
    else if !env.emailValidator email then
      (false, { state with fieldEmailError := some (.invalidEmail email) })
    else if state.fieldEmailError.isSome then
      (true, { state with fieldEmailError := none })
    else
      (true, state)

/-- The method `validateTitle` (edit.js lines 289-305). -/
def validateTitle (attributes : Attributes) (state : State) : Bool × State :=
  if emptyOrAbsent attributes.title then
    (false, { state with fieldTitleError := some .titleRequired })
  else if state.fieldTitleError.isSome then
    (true, { state with fieldTitleError := none })
  else
    (true, state)

/-- The method `validateAttributes` (edit.js lines 164-171): all four validators run, in
this order, before the flags are combined.  Each validator reads and writes its own slot
only, so threading the state through them agrees with batched `setState` calls. -/
def validateAttributes (env : Env) (attributes : Attributes) (state : State) :
    Bool × State :=
  let p := validatePrice env attributes state
  let t := validateTitle attributes p.2
  let e := validateEmail env attributes t.2
  let isCurrencyValid := validateCurrency env attributes
  (p.1 && t.1 && e.1 && isCurrencyValid, e.2)

/-! ## The price rule as the specification words it -/

/-- The four failing steps of the price rule, in the order the specification lists them. -/
inductive PriceStep where
  | required
  | unparseable
  | negative
  | decimals
  deriving DecidableEq, Repr

/-- A missing price: absent, or the empty string. -/
def priceMissing : JSValue → Bool
  | .undefined => true
  | .string s => s.data.isEmpty
  | .number _ => false

/-- Whether a step of the specification fails for a price and a currency precision. -/
def stepFails (price : JSValue) (precision : Nat) : PriceStep → Bool
  | .required => priceMissing price || (parseFloat price).isZero
  | .unparseable => (parseFloat price).isNaN
  | .negative => (parseFloat price).isNegative
  | .decimals => decide (precision < decimalPlaces price)

/-- The earliest step of the specification that fails, if one does. -/
def firstFailingStep (price : JSValue) (precision : Nat) : Option PriceStep :=
  [PriceStep.required, PriceStep.unparseable, PriceStep.negative, PriceStep.decimals].find?
    (stepFails price precision)

/-- The message the specification attaches to a failing step. -/
def stepMessage (precision : Nat) : PriceStep → Message
  | .required => .priceRequired
  | .unparseable => .invalidPrice
  | .negative => .negativePrice
  | .decimals => if precision = 0 then .noDecimals else .tooManyDecimals precision

/-- The price rule of the specification: the message of the earliest failing step, `none`
when no step fails. -/
def priceRule (price : JSValue) (precision : Nat) : Option Message :=
  (firstFailingStep price precision).map (stepMessage precision)

/-- The title rule of the specification: an error if empty or absent, else valid. -/
def titleRule (title : Option String) : Option Message :=
  if emptyOrAbsent title then some .titleRequired else none

/-- The email rule of the specification: an error if empty or absent, else an error if
not a syntactically valid address, else valid. -/
def emailRule (env : Env) (email : Option String) : Option Message :=
  match email with
  | none => some .emailRequired
  | some address =>
    if address.data.isEmpty then some .emailRequired
    else if env.emailValidator address then none
    else some (.invalidEmail address)

/-- The count the specification words for a price in exponential form: the number of
fraction digits minus the magnitude `k` of the exponent, floored at 0. -/
def decimalsByMagnitude (fractionDigits : List Char) (k : Nat) : Nat :=
  fractionDigits.length - k

/-- The written form of a fraction: nothing for no digits, else a point and the digits. -/
def fractionChars (d : List Char) : List Char :=
  if d.isEmpty then [] else '.' :: d

end SimplePayments

namespace Authors

theorem lastWithID_cons (u : User) (t : List User) (k : Nat) :
    lastWithID (u :: t) k =
      match lastWithID t k with
      | some r => some r
      | none => if u.ID = k then some u else none := by
  unfold lastWithID
  rw [List.reverse_cons, List.find?_append]
  cases h : List.find? (fun u => u.ID == k) t.reverse with
  | some r => simp
  | none =>
    by_cases hk : u.ID = k
    · simp [List.find?, hk]
    · have hb : (u.ID == k) = false := by simpa using hk
      simp [List.find?, hk, hb]

theorem lookup_insertAll (b : List User) (p : Props) (k : Nat) :
    Finmap.lookup k (insertAll p b) =
      match lastWithID b k with
      | some r => some r
      | none => Finmap.lookup k p := by
  induction b generalizing p with
  | nil => simp [insertAll, lastWithID]
  | cons u t ih =>
    have h := ih (Finmap.insert u.ID u p)
    simp only [insertAll, List.foldl_cons] at h ⊢
    rw [h, lastWithID_cons]
    cases ht : lastWithID t k with
    | some r => simp
    | none =>
      by_cases hk : u.ID = k
      · subst hk; simp [Finmap.lookup_insert]
      · have hk2 : k ≠ u.ID := fun e => hk e.symm
        simp [hk, Finmap.lookup_insert_of_ne _ hk2]

theorem foldl_itemsStep_detached (state : Obj) (b : List User) (acc : Obj)
    (h : acc.addr ≠ state.addr) :
    (b.foldl (itemsStep state) acc).addr = acc.addr ∧
      (b.foldl (itemsStep state) acc).props = insertAll acc.props b := by
  induction b generalizing acc with
  | nil => simp [insertAll]
  | cons u t ih =>
    have hs : itemsStep state acc u = acc.assign u.ID u := by
      simp [itemsStep, Obj.same, h]
    have h2 : (acc.assign u.ID u).addr ≠ state.addr := by simpa [Obj.assign] using h
    have := ih (acc.assign u.ID u) h2
    simp only [List.foldl_cons, hs]
    refine ⟨this.1, ?_⟩
    rw [this.2]
    simp [insertAll, Obj.assign]

theorem items_receive_cons (state : Obj) (u : User) (t : List User) :
    (items state (.POST_REVISION_AUTHORS_RECEIVE (u :: t))).addr = state.addr + 1 ∧
      (items state (.POST_REVISION_AUTHORS_RECEIVE (u :: t))).props
        = insertAll state.props (u :: t) := by
  have hs : itemsStep state state u = (spread state).assign u.ID u := by
    simp [itemsStep, Obj.same]
  have h2 : ((spread state).assign u.ID u).addr ≠ state.addr := by
    simp [Obj.assign, spread]
  have := foldl_itemsStep_detached state t _ h2
  simp only [items, List.foldl_cons, hs]
  refine ⟨this.1, ?_⟩
  rw [this.2]
  simp [insertAll, Obj.assign, spread]

theorem items_receive_props (state : Obj) (b : List User) :
    (items state (.POST_REVISION_AUTHORS_RECEIVE b)).props = insertAll state.props b := by
  cases b with
  | nil => simp [items, insertAll]
  | cons u t => exact (items_receive_cons state u t).2


theorem lookup_items_receive (state : Obj) (b : List User) (k : Nat) :
    Finmap.lookup k (items state (.POST_REVISION_AUTHORS_RECEIVE b)).props =
      match lastWithID b k with
      | some r => some r
      | none => Finmap.lookup k state.props := by
  rw [items_receive_props, lookup_insertAll]

theorem lastWithID_ID (b : List User) (k : Nat) (r : User) (h : lastWithID b k = some r) :
    r.ID = k := by
  have := List.find?_some h
  simpa using this

/-- C1. The `items` reducer, on a receive action carrying the batch `b`, returns a mapping
that sends each key `k` to the last record of `b` whose ID is `k` when `b` holds one, and
otherwise to what the current mapping holds at `k` (nothing when it holds nothing); the
specification's example evaluates as stated. -/
theorem items_receive_lookup :
    (∀ (m : Obj) (b : List User) (k : Nat),
      Finmap.lookup k (items m (.POST_REVISION_AUTHORS_RECEIVE b)).props =
        match lastWithID b k with
        | some r => some r
        | none => Finmap.lookup k m.props) ∧
    (items { addr := 0, props := Finmap.singleton 1 { ID := 1, attrs := [("name", "a")] } }
        (.POST_REVISION_AUTHORS_RECEIVE
          [{ ID := 1, attrs := [("name", "b")] }, { ID := 2, attrs := [("name", "c")] }])).props
      = Finmap.insert 2 { ID := 2, attrs := [("name", "c")] }
          (Finmap.singleton 1 { ID := 1, attrs := [("name", "b")] }) := by
  refine ⟨lookup_items_receive, ?_⟩
  decide

/-- C2. On a receive action whose `users` list is empty the `items` reducer returns the
state object itself: same address, same properties. -/
theorem items_receive_nil (m : Obj) :
    items m (.POST_REVISION_AUTHORS_RECEIVE []) = m := rfl

/-- C3. Merging the same batch a second time changes nothing by value, also when the
batch repeats an ID. -/
theorem items_receive_idempotent (m : Obj) (b : List User) :
    (items (items m (.POST_REVISION_AUTHORS_RECEIVE b))
        (.POST_REVISION_AUTHORS_RECEIVE b)).props
      = (items m (.POST_REVISION_AUTHORS_RECEIVE b)).props := by
  apply Finmap.ext_lookup
  intro k
  rw [lookup_items_receive]
  cases h : lastWithID b k with
  | none => rfl
  | some r => simp [lookup_items_receive, h]

/-- C10, as stated, fails: a batch of one record that the mapping already stores under its
ID comes back as a newly allocated object, not the state object. -/
theorem items_unchanged_batch_not_same :
    (∀ r ∈ [({ ID := 1, attrs := [("name", "a")] } : User)],
        Finmap.lookup r.ID
          (Finmap.singleton 1 { ID := 1, attrs := [("name", "a")] } : Props) = some r) ∧
      (items { addr := 0, props := Finmap.singleton 1 { ID := 1, attrs := [("name", "a")] } }
        (.POST_REVISION_AUTHORS_RECEIVE [{ ID := 1, attrs := [("name", "a")] }])).same
        { addr := 0, props := Finmap.singleton 1 { ID := 1, attrs := [("name", "a")] } }
        = false := by
  decide

/-- C10, amended. For a non-empty batch the reducer returns a newly allocated object, never
the state object; when every record of the batch is already stored under its own ID, that
copy equals the state by value. -/
theorem items_receive_nonempty_copies (m : Obj) (b : List User) (hb : b ≠ []) :
    (items m (.POST_REVISION_AUTHORS_RECEIVE b)).same m = false ∧
      ((∀ r ∈ b, Finmap.lookup r.ID m.props = some r) →
        (items m (.POST_REVISION_AUTHORS_RECEIVE b)).props = m.props) := by
  cases b with
  | nil => exact absurd rfl hb
  | cons u t =>
    refine ⟨?_, ?_⟩
    · simp [Obj.same, (items_receive_cons m u t).1]
    · intro hstored
      apply Finmap.ext_lookup
      intro k
      rw [lookup_items_receive]
      cases h : lastWithID (u :: t) k with
      | none => rfl
      | some r =>
        have hmem : r ∈ (u :: t) := by
          have := List.mem_of_find?_eq_some h
          simpa [or_comm] using this
        have hid := lastWithID_ID _ _ _ h
        have := hstored r hmem
        rw [hid] at this
        simp [this]

theorem items_receive_nonempty_copies_witness :
    [({ ID := 1, attrs := [("name", "a")] } : User)] ≠ [] ∧
      (items { addr := 0, props := Finmap.singleton 1 { ID := 1, attrs := [("name", "a")] } }
        (.POST_REVISION_AUTHORS_RECEIVE [{ ID := 1, attrs := [("name", "a")] }])).props
      = Finmap.singleton 1 { ID := 1, attrs := [("name", "a")] } :=
  ⟨by decide,
    (items_receive_nonempty_copies
      { addr := 0, props := Finmap.singleton 1 { ID := 1, attrs := [("name", "a")] } }
      [{ ID := 1, attrs := [("name", "a")] }] (by decide)).2 (by decide)⟩

end Authors

namespace SimplePayments

/-! ## Characters and digit runs -/

theorem digit_ne (c : Char) (h : isDecimalDigit c = true) :
    c ≠ '.' ∧ c ≠ 'e' ∧ c ≠ 'E' ∧ c ≠ '+' ∧ c ≠ '-' ∧ c ≠ 'I' := by
  refine ⟨?_, ?_, ?_, ?_, ?_, ?_⟩ <;> (rintro rfl; exact absurd h (by decide))

theorem digit_not_space (c : Char) (h : isDecimalDigit c = true) :
    isStrWhiteSpaceChar c = false := by
  simp only [isDecimalDigit, Bool.and_eq_true, decide_eq_true_eq] at h
  simp only [isStrWhiteSpaceChar, Bool.or_eq_false_iff, Bool.and_eq_false_iff, beq_eq_false_iff_ne,
    decide_eq_false_iff_not]
  omega

theorem dropWhile_of_takeWhile_nil (p : Char → Bool) (l : List Char)
    (h : l.takeWhile p = []) : l.dropWhile p = l := by
  have := List.takeWhile_append_dropWhile p l
  rw [h] at this
  simpa using this

theorem digits_run (d rest : List Char) (hd : ∀ c ∈ d, isDecimalDigit c = true)
    (hr : rest.takeWhile isDecimalDigit = []) :
    (d ++ rest).takeWhile isDecimalDigit = d ∧ (d ++ rest).dropWhile isDecimalDigit = rest := by
  constructor
  · rw [List.takeWhile_append_of_pos hd, hr, List.append_nil]
  · rw [List.dropWhile_append_of_pos hd, dropWhile_of_takeWhile_nil _ _ hr]

theorem takeWhile_cons_letter (c : Char) (t : List Char) (h : isDecimalDigit c = false) :
    (c :: t).takeWhile isDecimalDigit = [] := by
  simp [List.takeWhile_cons, h]

/-! ## The regular expression of `decimalPlaces` -/

theorem matchFraction_digits (d rest : List Char) (hne : d ≠ [])
    (hd : ∀ c ∈ d, isDecimalDigit c = true) (hr : rest.takeWhile isDecimalDigit = []) :
    matchFraction ('.' :: (d ++ rest)) = (some d, rest) := by
  have h := digits_run d rest hd hr
  simp [matchFraction, h.1, h.2, hne]

theorem matchFraction_other (c : Char) (t : List Char) (h : c ≠ '.') :
    matchFraction (c :: t) = (none, c :: t) := by
  simp [matchFraction, h]

theorem matchExponent_other (c : Char) (t : List Char) (h1 : c ≠ 'e') (h2 : c ≠ 'E') :
    matchExponent (c :: t) = (none, c :: t) := by
  simp [matchExponent, h1, h2]

theorem signPrefix_sign (sign kd : List Char)
    (hsign : sign = [] ∨ sign = ['+'] ∨ sign = ['-'])
    (hkd : ∀ c ∈ kd, isDecimalDigit c = true) :
    signPrefix (sign ++ kd) = sign := by
  rcases hsign with rfl | rfl | rfl
  · cases kd with
    | nil => rfl
    | cons c t =>
      have hc := digit_ne c (hkd c (List.mem_cons_self _ _))
      simp [signPrefix, hc.2.2.2.1, hc.2.2.2.2.1]
  · simp [signPrefix]
  · simp [signPrefix]

theorem matchExponent_signed (e : Char) (sign kd : List Char) (he : e = 'e' ∨ e = 'E')
    (hsign : sign = [] ∨ sign = ['+'] ∨ sign = ['-'])
    (hne : kd ≠ []) (hkd : ∀ c ∈ kd, isDecimalDigit c = true) :
    matchExponent (e :: (sign ++ kd)) = (some (sign ++ kd), []) := by
  have hs := signPrefix_sign sign kd hsign hkd
  have hrun := digits_run kd [] hkd rfl
  simp only [List.append_nil] at hrun
  simp [matchExponent, he, hs, hrun.1, hrun.2, hne]

theorem matchHere_skip (c : Char) (t : List Char)
    (h : c ≠ '.' ∧ c ≠ 'e' ∧ c ≠ 'E') : matchHere (c :: t) = none := by
  simp [matchHere, matchFraction_other c t h.1, matchExponent_other c t h.2.1 h.2.2]

theorem regexMatch_here (cs : List Char) (m : Option (List Char) × Option (List Char))
    (h : matchHere cs = some m) : regexMatch cs = some m := by
  cases cs with
  | nil => simpa [regexMatch] using h
  | cons c t => simp [regexMatch, h]

theorem regexMatch_skip (pre suf : List Char)
    (hpre : ∀ c ∈ pre, c ≠ '.' ∧ c ≠ 'e' ∧ c ≠ 'E') :
    regexMatch (pre ++ suf) = regexMatch suf := by
  induction pre with
  | nil => rfl
  | cons c t ih =>
    have hc := hpre c (List.mem_cons_self _ _)
    have ht : ∀ x ∈ t, x ≠ '.' ∧ x ≠ 'e' ∧ x ≠ 'E' :=
      fun x hx => hpre x (List.mem_cons_of_mem _ hx)
    simp [regexMatch, matchHere_skip c (t ++ suf) hc, ih ht]

theorem nearestDouble_small (n : Nat) (h : n < 2 ^ 53) : nearestDouble n = some n := by
  have he : excessBits n n = 0 := by
    cases n with
    | zero => rfl
    | succ m =>
      show (if m + 1 < 2 ^ 53 then 0 else excessBits m ((m + 1) / 2) + 1) = 0
      rw [if_pos h]
  simp [nearestDouble, he, Nat.mod_one]

theorem Places.finite_lt_finite (a b : Nat) : Places.finite a < Places.finite b ↔ a < b := by
  show (Places.finite a).ltb (Places.finite b) = true ↔ a < b
  simp [Places.ltb]

theorem Places.not_lt_of_le (a b : Places) (h : a ≤ b) : ¬ b < a := by
  intro hlt
  have h1 : b.ltb a = false := h
  have h2 : b.ltb a = true := hlt
  rw [h1] at h2
  exact Bool.noConfusion h2

theorem signedValue_sign (sign kd : List Char)
    (hsign : sign = [] ∨ sign = ['+'] ∨ sign = ['-'])
    (hkd : ∀ c ∈ kd, isDecimalDigit c = true) (hk : digitsValue kd < 2 ^ 53) :
    signedValue (sign ++ kd) =
      .finite (if sign = ['-'] then -(digitsValue kd : Int) else (digitsValue kd : Int)) := by
  have hn := nearestDouble_small _ hk
  rcases hsign with rfl | rfl | rfl
  · cases kd with
    | nil => simp [signedValue, splitSign, hn]
    | cons c t =>
      have hc := digit_ne c (hkd c (List.mem_cons_self _ _))
      simp [signedValue, splitSign, hc.2.2.2.1, hc.2.2.2.2.1, hn]
  · simp [signedValue, splitSign, hn]
  · simp [signedValue, splitSign, hn]

theorem maxZeroSub_exact (length : Nat) (exponent : Int)
    (h : ((length : Int) - exponent).toNat < 2 ^ 53) :
    maxZeroSub length (.finite exponent) = Places.finite ((length : Int) - exponent).toNat := by
  unfold maxZeroSub
  by_cases h0 : exponent = 0
  · subst h0
    simp
  · simp [h0, nearestDouble_small _ h]

theorem matchHere_fraction_exponent (d sign kd : List Char) (e : Char)
    (hd : ∀ c ∈ d, isDecimalDigit c = true) (he : e = 'e' ∨ e = 'E')
    (hsign : sign = [] ∨ sign = ['+'] ∨ sign = ['-'])
    (hne : kd ≠ []) (hkd : ∀ c ∈ kd, isDecimalDigit c = true) :
    matchHere (fractionChars d ++ e :: (sign ++ kd)) =
      some (if d.isEmpty then none else some d, some (sign ++ kd)) := by
  have hex := matchExponent_signed e sign kd he hsign hne hkd
  have hnd : isDecimalDigit e = false := by rcases he with rfl | rfl <;> decide
  cases d with
  | nil =>
    have h1 : e ≠ '.' := by rcases he with rfl | rfl <;> decide
    simp [matchHere, fractionChars, matchFraction_other e _ h1, hex]
  | cons c t =>
    have hf := matchFraction_digits (c :: t) (e :: (sign ++ kd)) (by simp) hd
      (takeWhile_cons_letter e _ hnd)
    have hfc : fractionChars (c :: t) ++ e :: (sign ++ kd)
        = '.' :: ((c :: t) ++ e :: (sign ++ kd)) := by simp [fractionChars]
    rw [hfc]
    rw [List.cons_append] at hf
    simp [matchHere, hf, hex]

theorem matchHere_fraction (d : List Char) (hd : ∀ c ∈ d, isDecimalDigit c = true) :
    matchHere (fractionChars d) = some (if d.isEmpty then none else some d, none) := by
  cases d with
  | nil => simp [matchHere, fractionChars, matchFraction, matchExponent]
  | cons c t =>
    have hf := matchFraction_digits (c :: t) [] (by simp) hd rfl
    simp only [List.append_nil] at hf
    simp [matchHere, fractionChars, hf, matchExponent]

theorem decimalPlacesChars_exponent (pre d sign kd : List Char) (e : Char)
    (hpre : ∀ c ∈ pre, c ≠ '.' ∧ c ≠ 'e' ∧ c ≠ 'E')
    (hd : ∀ c ∈ d, isDecimalDigit c = true) (he : e = 'e' ∨ e = 'E')
    (hsign : sign = [] ∨ sign = ['+'] ∨ sign = ['-'])
    (hne : kd ≠ []) (hkd : ∀ c ∈ kd, isDecimalDigit c = true)
    (hbound : d.length + digitsValue kd < 2 ^ 53) :
    decimalPlacesChars (pre ++ (fractionChars d ++ e :: (sign ++ kd))) =
      Places.finite ((d.length : Int)
        - (if sign = ['-'] then -(digitsValue kd : Int) else (digitsValue kd : Int))).toNat := by
  have hm := regexMatch_here _ _ (matchHere_fraction_exponent d sign kd e hd he hsign hne hkd)
  have hk : digitsValue kd < 2 ^ 53 := by omega
  have hx : ((d.length : Int)
      - (if sign = ['-'] then -(digitsValue kd : Int) else (digitsValue kd : Int))).toNat
        < 2 ^ 53 := by
    split <;> omega
  unfold decimalPlacesChars
  rw [regexMatch_skip pre _ hpre, hm]
  simp only [signedValue_sign sign kd hsign hkd hk]
  cases d with
  | nil =>
    have := maxZeroSub_exact 0 _ hx
    simpa using this
  | cons c t =>
    have := maxZeroSub_exact (c :: t).length _ hx
    simpa using this

theorem decimalPlacesChars_fraction (pre d : List Char)
    (hpre : ∀ c ∈ pre, c ≠ '.' ∧ c ≠ 'e' ∧ c ≠ 'E')
    (hd : ∀ c ∈ d, isDecimalDigit c = true) :
    decimalPlacesChars (pre ++ fractionChars d) = Places.finite d.length := by
  have hm := regexMatch_here _ _ (matchHere_fraction d hd)
  unfold decimalPlacesChars
  rw [regexMatch_skip pre _ hpre, hm]
  cases d with
  | nil => simp [maxZeroSub]
  | cons c t => simp [maxZeroSub]

/-! ## `parseFloat` on a string that starts with a digit -/

theorem parseUnsigned_digit_head (c : Char) (t : List Char) (h : isDecimalDigit c = true) :
    ∃ m e, parseUnsigned (c :: t) = some (m, e) := by
  unfold parseUnsigned
  have hip : (c :: t).takeWhile isDecimalDigit = c :: t.takeWhile isDecimalDigit := by
    simp [List.takeWhile_cons, h]
  simp only [hip]
  split
  · simp
  · simp

theorem parseFloatChars_digit_head (c : Char) (t : List Char) (h : isDecimalDigit c = true) :
    ∃ m e, parseFloatChars (c :: t) = .decimal false m e := by
  obtain ⟨m, e, hme⟩ := parseUnsigned_digit_head c t h
  have hc := digit_ne c h
  have hsp : (c :: t).dropWhile isStrWhiteSpaceChar = c :: t := by
    simp [List.dropWhile_cons, digit_not_space c h]
  have hss : splitSign (c :: t) = (false, c :: t) := by
    simp [splitSign, hc.2.2.2.1, hc.2.2.2.2.1]
  have hinf : "Infinity".data.isPrefixOf (c :: t) = false := by
    have hI : ('I' == c) = false := by
      simpa using fun e => hc.2.2.2.2.2 e.symm
    simp [List.isPrefixOf, hI]
  refine ⟨m, e, ?_⟩
  simp [parseFloatChars, hsp, hss, hinf, hme]

theorem digits_no_point (ip : List Char) (h : ∀ c ∈ ip, isDecimalDigit c = true) :
    ∀ c ∈ ip, c ≠ '.' ∧ c ≠ 'e' ∧ c ≠ 'E' := fun c hc =>
  ⟨(digit_ne c (h c hc)).1, (digit_ne c (h c hc)).2.1, (digit_ne c (h c hc)).2.2.1⟩

/-! ## The decimal-place count -/

/-- C5, as stated, fails at the price "1e-7": the code returns 7, where the number of
fraction digits (none) minus the exponent magnitude 7, floored at 0, is 0. -/
theorem decimalPlaces_exponent_magnitude_fails :
    decimalPlaces (.string "1e-7") = 7 ∧ decimalsByMagnitude [] 7 = 0 := by
  decide

/-- Outside the written shape and the exact range of the next theorem: characters after
the number leave only the empty match at the end of the string, so the count is 0, and an
exponent past `2^53` enters the subtraction as the nearest double. -/
theorem decimalPlaces_trailing_and_rounding :
    decimalPlaces (.string "19.999 ") = 0 ∧
      decimalPlaces (.string "1e-9007199254740993") = 9007199254740992 ∧
      decimalPlaces (.string "1.5e-9007199254740992") = 9007199254740992 := by
  decide

/-- C5, amended. For a price written as a part free of `.`, `e` and `E`, then optional
fraction digits `d`, then an exponent `e`, optional sign, digits `k`, `decimalPlaces`
returns the number of fraction digits minus the signed exponent, floored at 0: `len d - k`
for `e+k` and `ek`, `len d + k` for `e-k`; exactly so when `len d + k < 2^53`, where
the double arithmetic of the code is exact.  Without the exponent it returns the number of
fraction digits, 0 when there is no decimal point. -/
theorem decimalPlaces_signed_exponent (pre d sign kd : List Char) (e : Char)
    (hpre : ∀ c ∈ pre, c ≠ '.' ∧ c ≠ 'e' ∧ c ≠ 'E')
    (hd : ∀ c ∈ d, isDecimalDigit c = true) (he : e = 'e' ∨ e = 'E')
    (hsign : sign = [] ∨ sign = ['+'] ∨ sign = ['-'])
    (hne : kd ≠ []) (hkd : ∀ c ∈ kd, isDecimalDigit c = true)
    (hbound : d.length + digitsValue kd < 2 ^ 53) :
    decimalPlaces (.string ⟨pre ++ (fractionChars d ++ e :: (sign ++ kd))⟩) =
        ((d.length : Int)
          - (if sign = ['-'] then -(digitsValue kd : Int) else (digitsValue kd : Int))).toNat ∧
      decimalPlaces (.string ⟨pre ++ fractionChars d⟩) = d.length :=
  ⟨decimalPlacesChars_exponent pre d sign kd e hpre hd he hsign hne hkd hbound,
    decimalPlacesChars_fraction pre d hpre hd⟩

theorem decimalPlaces_signed_exponent_witness :
    decimalPlaces (.string "-1.25e-7") = 9 ∧ decimalPlaces (.string "-1.25") = 2 :=
  decimalPlaces_signed_exponent ['-', '1'] ['2', '5'] ['-'] ['7'] 'e'
    (by decide) (by decide) (by decide) (by decide) (by decide) (by decide) (by decide)

/-! ## Price validation -/

theorem validatePrice_passed_digits (env : Env) (attributes : Attributes) (state : State)
    (c : Char) (t : List Char) (hc : isDecimalDigit c = true)
    (hprice : attributes.price = .string ⟨c :: t⟩)
    (hnz : (parseFloat attributes.price).isZero = false) :
    validatePrice env attributes state =
      if decimalPlaces attributes.price > (env.getCurrencyDefaults attributes.currency).precision then
        if (env.getCurrencyDefaults attributes.currency).precision = 0 then
          (false, { state with fieldPriceError := some .noDecimals })
        else
          (false, { state with
            fieldPriceError := some (.tooManyDecimals (env.getCurrencyDefaults attributes.currency).precision) })
      else if state.fieldPriceError.isSome then
        (true, { state with fieldPriceError := none })
      else
        (true, state) := by
  obtain ⟨m, e, hme⟩ := parseFloatChars_digit_head c t hc
  have hpf : parseFloat attributes.price = .decimal false m e := by
    rw [hprice]; exact hme
  have hz : roundsToZero m e = false := by
    rw [hpf] at hnz; simpa [NumVal.isZero] using hnz
  have hfalsy : attributes.price.falsy = false := by
    rw [hprice]; simp [JSValue.falsy]
  unfold validatePrice
  simp [hfalsy, hpf, NumVal.isZero, NumVal.isNaN, NumVal.isNegative, hz]

/-- C6. For a price written as a plain decimal string (digits, then optionally a point and
digits, no exponent) that does not parse to zero, and every currency precision `p`,
`validatePrice` fails exactly when the number of digits after the point exceeds `p`; the
stored error is then the no-decimals message when `p = 0` and otherwise the message
carrying `p`. -/
theorem validatePrice_plain_decimal (env : Env) (attributes : Attributes) (state : State)
    (ip fp : List Char) (hne : ip ≠ [])
    (hip : ∀ c ∈ ip, isDecimalDigit c = true) (hfp : ∀ c ∈ fp, isDecimalDigit c = true)
    (hprice : attributes.price = .string ⟨ip ++ fractionChars fp⟩)
    (hnz : (parseFloat attributes.price).isZero = false) :
    ((validatePrice env attributes state).1 = false ↔
        (env.getCurrencyDefaults attributes.currency).precision < fp.length) ∧
      ((env.getCurrencyDefaults attributes.currency).precision < fp.length →
        (validatePrice env attributes state).2.fieldPriceError =
          some (if (env.getCurrencyDefaults attributes.currency).precision = 0 then Message.noDecimals
            else Message.tooManyDecimals (env.getCurrencyDefaults attributes.currency).precision)) := by
  have hdp : decimalPlaces attributes.price = fp.length := by
    rw [hprice]
    exact decimalPlacesChars_fraction ip fp (digits_no_point ip hip) hfp
  cases ip with
  | nil => exact absurd rfl hne
  | cons c t =>
    have hc := hip c (List.mem_cons_self _ _)
    have hv := validatePrice_passed_digits env attributes state c (t ++ fractionChars fp) hc
      (by rw [hprice]; rfl) hnz
    rw [hv, hdp]
    generalize (env.getCurrencyDefaults attributes.currency).precision = p
    by_cases hlt : p < fp.length
    · by_cases h0 : p = 0
      · subst h0
        simp [hlt, Places.finite_lt_finite]
      · simp [hlt, h0, Places.finite_lt_finite]
    · by_cases hs : state.fieldPriceError.isSome
      · simp [hlt, hs, Places.finite_lt_finite]
      · simp [hlt, hs, Places.finite_lt_finite]

theorem validatePrice_plain_decimal_witness :
    ((validatePrice
        { SUPPORTED_CURRENCY_LIST := ["USD"], getCurrencyDefaults := fun _ => { precision := 2 },
          emailValidator := fun _ => true }
        { title := some "Tea", price := .string "19.999", currency := some "USD",
          email := some "a@b.com" }
        { fieldEmailError := none, fieldPriceError := none, fieldTitleError := none,
          isSavingProduct := false }).2.fieldPriceError = some (Message.tooManyDecimals 2)) ∧
      (Message.tooManyDecimals 2).text = "The price cannot have more than 2 decimal places." :=
  ⟨(validatePrice_plain_decimal
      { SUPPORTED_CURRENCY_LIST := ["USD"], getCurrencyDefaults := fun _ => { precision := 2 },
        emailValidator := fun _ => true }
      { title := some "Tea", price := .string "19.999", currency := some "USD",
        email := some "a@b.com" }
      { fieldEmailError := none, fieldPriceError := none, fieldTitleError := none,
        isSavingProduct := false }
      ['1', '9'] ['9', '9', '9'] (by decide) (by decide) (by decide) (by decide)
      (by decide)).2 (by decide),
    by decide⟩

/-! ## The validators against the rules of the specification -/

theorem falsy_or_zero (price : JSValue) :
    (price.falsy || (parseFloat price).isZero)
      = (priceMissing price || (parseFloat price).isZero) := by
  cases price with
  | undefined => rfl
  | string s => rfl
  | number x =>
    cases x with
    | zero neg => rfl
    | infinity neg => rfl
    | finite neg s n => rfl

theorem state_eta_price (state : State) (h : state.fieldPriceError.isSome = false) :
    ({ state with fieldPriceError := none } : State) = state := by
  cases state with
  | mk e p t i =>
    cases p with
    | none => rfl
    | some m => simp at h

theorem validatePrice_eq_rule (env : Env) (attributes : Attributes) (state : State) :
    validatePrice env attributes state =
      ((priceRule attributes.price (env.getCurrencyDefaults attributes.currency).precision).isNone,
        { state with
          fieldPriceError := priceRule attributes.price (env.getCurrencyDefaults attributes.currency).precision })
    := by
  unfold validatePrice
  simp only [falsy_or_zero]
  generalize (env.getCurrencyDefaults attributes.currency).precision = p
  by_cases h1 : (priceMissing attributes.price || (parseFloat attributes.price).isZero) = true
  · simp [priceRule, firstFailingStep, stepFails, stepMessage, h1]
  · by_cases h2 : (parseFloat attributes.price).isNaN = true
    · simp [priceRule, firstFailingStep, stepFails, stepMessage, h1, h2]
    · by_cases h3 : (parseFloat attributes.price).isNegative = true
      · simp [priceRule, firstFailingStep, stepFails, stepMessage, h1, h2, h3]
      · by_cases h4 : p < decimalPlaces attributes.price
        · by_cases h0 : p = 0
          · subst h0
            simp [priceRule, firstFailingStep, stepFails, stepMessage, h1, h2, h3, h4]
          · simp [priceRule, firstFailingStep, stepFails, stepMessage, h1, h2, h3, h4, h0]
        · by_cases hs : state.fieldPriceError.isSome = true
          · simp [priceRule, firstFailingStep, stepFails, stepMessage, h1, h2, h3, h4, hs]
          · have hs2 : state.fieldPriceError.isSome = false := by simpa using hs
            simp [priceRule, firstFailingStep, stepFails, stepMessage, h1, h2, h3, h4, hs,
              state_eta_price state hs2]

theorem validateTitle_eq_rule (attributes : Attributes) (state : State) :
    validateTitle attributes state =
      ((titleRule attributes.title).isNone,
        { state with fieldTitleError := titleRule attributes.title }) := by
  unfold validateTitle titleRule
  by_cases h : emptyOrAbsent attributes.title = true
  · simp [h]
  · by_cases hs : state.fieldTitleError.isSome = true
    · simp [h, hs]
    · cases state with
      | mk e p t i =>
        cases t with
        | none => simp [h]
        | some m => simp at hs

theorem validateEmail_eq_rule (env : Env) (attributes : Attributes) (state : State) :
    validateEmail env attributes state =
      ((emailRule env attributes.email).isNone,
        { state with fieldEmailError := emailRule env attributes.email }) := by
  unfold validateEmail emailRule
  cases attributes.email with
  | none => simp
  | some address =>
    by_cases h : address.data.isEmpty = true
    · simp [h]
    · by_cases hv : env.emailValidator address = true
      · by_cases hs : state.fieldEmailError.isSome = true
        · simp [h, hv, hs]
        · cases state with
          | mk e p t i =>
            cases e with
            | none => simp [h, hv]
            | some m => simp at hs
      · simp [h, hv]

theorem validateAttributes_eq_rules (env : Env) (attributes : Attributes) (state : State) :
    validateAttributes env attributes state =
      ((priceRule attributes.price (env.getCurrencyDefaults attributes.currency).precision).isNone
          && (titleRule attributes.title).isNone
          && (emailRule env attributes.email).isNone
          && validateCurrency env attributes,
        { state with
          fieldPriceError := priceRule attributes.price (env.getCurrencyDefaults attributes.currency).precision
          fieldTitleError := titleRule attributes.title
          fieldEmailError := emailRule env attributes.email }) := by
  unfold validateAttributes
  simp only [validatePrice_eq_rule, validateTitle_eq_rule, validateEmail_eq_rule]

theorem validateCurrency_iff (env : Env) (attributes : Attributes) :
    validateCurrency env attributes = true ↔
      ∃ c, attributes.currency = some c ∧ c ∈ env.SUPPORTED_CURRENCY_LIST := by
  unfold validateCurrency
  cases attributes.currency with
  | none => simp
  | some c => simp

theorem firstFailingStep_isSome (price : JSValue) (precision : Nat) (step : PriceStep)
    (h : stepFails price precision step = true) :
    (firstFailingStep price precision).isSome = true := by
  unfold firstFailingStep
  rw [List.find?_isSome]
  exact ⟨step, by cases step <;> simp, h⟩

theorem priceRule_isSome (price : JSValue) (precision : Nat) (step : PriceStep)
    (h : stepFails price precision step = true) :
    (priceRule price precision).isSome = true := by
  have := firstFailingStep_isSome price precision step h
  simpa [priceRule] using this

theorem string_data_ne_nil (s : String) (h : s ≠ "") : s.data.isEmpty = false := by
  cases s with
  | mk l =>
    cases l with
    | nil => exact absurd rfl h
    | cons c t => rfl

/-! ## The claims about validation -/

/-- C4. `validatePrice` reports the error of the first failing step in the order: price
missing or numerically zero, price not parseable, price negative, too many decimal places;
it is valid exactly when no step fails.  Hence a price that is absent, 0, "0" or negative
gets a price error and an aggregate result of false, and "-1.999" with precision 2 and
"0.000", which each fail two steps, report the earlier one only. -/
theorem validatePrice_first_failing_step (env : Env) (attributes : Attributes)
    (state : State) :
    ((validatePrice env attributes state).1
        = (firstFailingStep attributes.price (env.getCurrencyDefaults attributes.currency).precision).isNone ∧
      (validatePrice env attributes state).2.fieldPriceError
        = (firstFailingStep attributes.price (env.getCurrencyDefaults attributes.currency).precision).map
            (stepMessage (env.getCurrencyDefaults attributes.currency).precision)) ∧
    ((attributes.price = .undefined ∨ (∃ neg, attributes.price = .number (.zero neg)) ∨
        attributes.price = .string "0" ∨ (parseFloat attributes.price).isNegative = true) →
      (validatePrice env attributes state).2.fieldPriceError.isSome = true ∧
        (validateAttributes env attributes state).1 = false ∧
        (validateAttributes env attributes state).2.fieldPriceError.isSome = true) ∧
    (stepFails (.string "-1.999") 2 .negative = true ∧
      stepFails (.string "-1.999") 2 .decimals = true ∧
      firstFailingStep (.string "-1.999") 2 = some .negative) ∧
    (stepFails (.string "0.000") 2 .required = true ∧
      stepFails (.string "0.000") 2 .decimals = true ∧
      firstFailingStep (.string "0.000") 2 = some .required) := by
  refine ⟨?_, ?_, by decide, by decide⟩
  · rw [validatePrice_eq_rule]
    simp [priceRule]
  · intro h
    have hfail : ∃ step,
        stepFails attributes.price (env.getCurrencyDefaults attributes.currency).precision step = true := by
      rcases h with h | ⟨neg, h⟩ | h | h
      · exact ⟨.required, by rw [h]; rfl⟩
      · exact ⟨.required, by rw [h]; rfl⟩
      · have hz : (parseFloat (.string "0")).isZero = true := by decide
        exact ⟨.required, by rw [h]; simp [stepFails, hz]⟩
      · exact ⟨.negative, h⟩
    obtain ⟨step, hstep⟩ := hfail
    have hs := priceRule_isSome _ _ step hstep
    rw [validateAttributes_eq_rules, validatePrice_eq_rule]
    have hn : (priceRule attributes.price (env.getCurrencyDefaults attributes.currency).precision).isNone
        = false := by
      cases hr : priceRule attributes.price (env.getCurrencyDefaults attributes.currency).precision with
      | none => rw [hr] at hs; simp at hs
      | some m => rfl
    simp [hs, hn]

theorem validatePrice_first_failing_step_witness :
    (validateAttributes
        { SUPPORTED_CURRENCY_LIST := ["USD"], getCurrencyDefaults := fun _ => { precision := 2 },
          emailValidator := fun _ => true }
        { title := some "Tea", price := .string "-5", currency := some "USD",
          email := some "a@b.com" }
        { fieldEmailError := none, fieldPriceError := none, fieldTitleError := none,
          isSavingProduct := false }).1 = false ∧
      (validatePrice
        { SUPPORTED_CURRENCY_LIST := ["USD"], getCurrencyDefaults := fun _ => { precision := 2 },
          emailValidator := fun _ => true }
        { title := some "Tea", price := .number (.zero false), currency := some "USD",
          email := some "a@b.com" }
        { fieldEmailError := none, fieldPriceError := none, fieldTitleError := none,
          isSavingProduct := false }).2.fieldPriceError = some .priceRequired :=
  ⟨((validatePrice_first_failing_step _ _ _).2.1 (Or.inr (Or.inr (Or.inr (by decide))))).2.1,
    ((validatePrice_first_failing_step _ _ _).1.2).trans (by decide)⟩

/-- C7. `validateAttributes` returns true exactly when the title, price, email and
currency validators all return true; the currency validator returns true exactly when
the currency is in the supported list; and a draft whose title, price and email are valid
and whose currency is not supported yields false with all three error slots null. -/
theorem validateAttributes_iff_all_valid (env : Env) (attributes : Attributes)
    (state : State) :
    ((validateAttributes env attributes state).1 = true ↔
      (validateTitle attributes state).1 = true ∧
        (validatePrice env attributes state).1 = true ∧
        (validateEmail env attributes state).1 = true ∧
        validateCurrency env attributes = true) ∧
    (validateCurrency env attributes = true ↔
      ∃ c, attributes.currency = some c ∧ c ∈ env.SUPPORTED_CURRENCY_LIST) ∧
    ((validateTitle attributes state).1 = true →
      (validatePrice env attributes state).1 = true →
      (validateEmail env attributes state).1 = true →
      validateCurrency env attributes = false →
      (validateAttributes env attributes state).1 = false ∧
        (validateAttributes env attributes state).2.fieldTitleError = none ∧
        (validateAttributes env attributes state).2.fieldPriceError = none ∧
        (validateAttributes env attributes state).2.fieldEmailError = none) := by
  rw [validateAttributes_eq_rules, validatePrice_eq_rule, validateTitle_eq_rule,
    validateEmail_eq_rule]
  refine ⟨?_, validateCurrency_iff env attributes, ?_⟩
  · simp only [Bool.and_eq_true]
    tauto
  · intro ht hp he hc
    simp only [Option.isNone_iff_eq_none] at ht hp he
    simp [ht, hp, he, hc]

theorem validateAttributes_iff_all_valid_witness :
    (validateAttributes
        { SUPPORTED_CURRENCY_LIST := ["USD"], getCurrencyDefaults := fun _ => { precision := 2 },
          emailValidator := fun _ => true }
        { title := some "Tea", price := .string "10", currency := some "XXX",
          email := some "a@b.com" }
        { fieldEmailError := none, fieldPriceError := none, fieldTitleError := none,
          isSavingProduct := false }).1 = false ∧
      (validateAttributes
        { SUPPORTED_CURRENCY_LIST := ["USD"], getCurrencyDefaults := fun _ => { precision := 2 },
          emailValidator := fun _ => true }
        { title := some "Tea", price := .string "10", currency := some "XXX",
          email := some "a@b.com" }
        { fieldEmailError := none, fieldPriceError := none, fieldTitleError := none,
          isSavingProduct := false }).2.fieldTitleError = none :=
  ⟨((validateAttributes_iff_all_valid _ _ _).2.2 (by decide) (by decide) (by decide)
      (by decide)).1,
    ((validateAttributes_iff_all_valid _ _ _).2.2 (by decide) (by decide) (by decide)
      (by decide)).2.1⟩

/-- C8. For a draft whose title is empty or absent, whatever its other fields hold, one
call of `validateAttributes` stores the title error and returns false; and on every call
each error slot ends as its own validator alone leaves it, so a failing price validator
does not keep the title or email error from being recorded. -/
theorem validateAttributes_records_each_slot (env : Env) (attributes : Attributes)
    (state : State) :
    (emptyOrAbsent attributes.title = true →
      (validateAttributes env attributes state).1 = false ∧
        (validateAttributes env attributes state).2.fieldTitleError
          = some Message.titleRequired) ∧
    (validateAttributes env attributes state).2.fieldPriceError
      = (validatePrice env attributes state).2.fieldPriceError ∧
    (validateAttributes env attributes state).2.fieldTitleError
      = (validateTitle attributes state).2.fieldTitleError ∧
    (validateAttributes env attributes state).2.fieldEmailError
      = (validateEmail env attributes state).2.fieldEmailError := by
  rw [validateAttributes_eq_rules, validatePrice_eq_rule, validateTitle_eq_rule,
    validateEmail_eq_rule]
  refine ⟨?_, rfl, rfl, rfl⟩
  intro h
  simp [titleRule, h]

theorem validateAttributes_records_each_slot_witness :
    (validateAttributes
        { SUPPORTED_CURRENCY_LIST := ["USD"], getCurrencyDefaults := fun _ => { precision := 2 },
          emailValidator := fun _ => false }
        { title := some "", price := .string "-1.999", currency := none,
          email := some "nobody" }
        { fieldEmailError := none, fieldPriceError := none, fieldTitleError := none,
          isSavingProduct := false }).2.fieldTitleError = some Message.titleRequired :=
  ((validateAttributes_records_each_slot _ _ _).1 (by decide)).2

/-- C9. For a fully valid draft (non-empty title, non-empty email the validator accepts,
supported currency, price that is present, parses to a non-zero, non-negative number and
has no more decimal places than the currency precision) `validateAttributes` returns true
and leaves the title, price and email error slots null, whatever they held before. -/
theorem validateAttributes_valid_clears (env : Env) (attributes : Attributes)
    (state : State) (title email currency : String)
    (htitle : attributes.title = some title) (htne : title ≠ "")
    (hemail : attributes.email = some email) (hene : email ≠ "")
    (hvalid : env.emailValidator email = true)
    (hcur : attributes.currency = some currency)
    (hsup : currency ∈ env.SUPPORTED_CURRENCY_LIST)
    (hpresent : priceMissing attributes.price = false)
    (hnz : (parseFloat attributes.price).isZero = false)
    (hnan : (parseFloat attributes.price).isNaN = false)
    (hneg : (parseFloat attributes.price).isNegative = false)
    (hdec : decimalPlaces attributes.price ≤ (env.getCurrencyDefaults attributes.currency).precision) :
    validateAttributes env attributes state =
      (true,
        { state with
          fieldEmailError := none
          fieldPriceError := none
          fieldTitleError := none }) := by
  have hp : priceRule attributes.price (env.getCurrencyDefaults attributes.currency).precision = none := by
    simp [priceRule, firstFailingStep, stepFails, hpresent, hnz, hnan, hneg,
      Places.not_lt_of_le _ _ hdec]
  have ht : titleRule attributes.title = none := by
    simp [titleRule, htitle, emptyOrAbsent, string_data_ne_nil title htne]
  have he : emailRule env attributes.email = none := by
    simp [emailRule, hemail, string_data_ne_nil email hene, hvalid]
  have hc : validateCurrency env attributes = true :=
    (validateCurrency_iff env attributes).mpr ⟨currency, hcur, hsup⟩
  rw [validateAttributes_eq_rules, hp, ht, he, hc]
  rfl

theorem validateAttributes_valid_clears_witness :
    validateAttributes
        { SUPPORTED_CURRENCY_LIST := ["USD", "JPY"], getCurrencyDefaults := fun _ => { precision := 0 },
          emailValidator := fun s => s.data.contains '@' }
        { title := some "Tea", price := .string "10", currency := some "JPY",
          email := some "a@b.com" }
        { fieldEmailError := some (.invalidEmail "a.b"),
          fieldPriceError := some .apiInvalidPrice,
          fieldTitleError := some .titleRequired, isSavingProduct := false }
      = (true,
          { fieldEmailError := none, fieldPriceError := none, fieldTitleError := none,
            isSavingProduct := false }) :=
  validateAttributes_valid_clears _ _ _ "Tea" "a@b.com" "JPY" rfl (by decide) rfl (by decide)
    (by decide) rfl (by decide) (by decide) (by decide) (by decide) (by decide) (by decide)

end SimplePayments
